import Mathlib

/-!
Shallow embedding of the DiscordWhispers bots (lain.py, syntax bot, satoshi.py):
chunked response delivery, conversation stores, trigger resolution, and the
model-client fallback behavior. Text is modelled as `List Char`; Python string
methods used by the bots are embedded below.
-/

set_option autoImplicit false

namespace DiscordWhispers

/-! ### Python string primitives -/

/-- Python `str.lower()` restricted to the per-character lowering the bots rely on. -/
def toLowerList (s : List Char) : List Char := s.map Char.toLower

/-- Whether `pat` is an initial segment of `s`; used to embed Python substring search. -/
def startsWithL : List Char → List Char → Bool
  | [], _ => true
  | _ :: _, [] => false
  | p :: ps, c :: cs => p = c && startsWithL ps cs

/-- Python `pat in s` substring test. -/
def containsSub (pat : List Char) : List Char → Bool
  | [] => pat = []
  | c :: cs => startsWithL pat (c :: cs) || containsSub pat cs

/-- Scanner for `str.replace(pat, repl)` with nonempty pattern `p :: ps`.
The fuel argument starts at the string length and bounds the recursion; each
step consumes at least one character, so it is never exhausted at call sites. -/
def replaceAllGo (p : Char) (ps repl : List Char) : Nat → List Char → List Char
  | _, [] => []
  | 0, s => s
  | fuel + 1, c :: cs =>
    if startsWithL (p :: ps) (c :: cs) then
      repl ++ replaceAllGo p ps repl fuel (cs.drop ps.length)
    else
      c :: replaceAllGo p ps repl fuel cs

/-- Python `s.replace(pat, repl)` (replace every occurrence, left to right). -/
def pyReplaceAll (pat repl s : List Char) : List Char :=
  match pat with
  | [] => repl ++ s.flatMap (fun c => c :: repl)
  | p :: ps => replaceAllGo p ps repl s.length s

/-- Scanner for `str.replace(pat, repl, 1)` with nonempty pattern. -/
def replaceFirstGo (p : Char) (ps repl : List Char) : List Char → List Char
  | [] => []
  | c :: cs =>
    if startsWithL (p :: ps) (c :: cs) then repl ++ cs.drop ps.length
    else c :: replaceFirstGo p ps repl cs

/-- Python `s.replace(pat, repl, 1)` (replace the first occurrence only). -/
def pyReplaceFirst (pat repl s : List Char) : List Char :=
  match pat with
  | [] => repl ++ s
  | p :: ps => replaceFirstGo p ps repl s

/-- The whitespace characters stripped by Python `str.strip()`. -/
def isPySpace (c : Char) : Bool :=
  c = ' ' || c = '\t' || c = '\n' || c = '\r' || c = '\x0b' || c = '\x0c'

/-- Python `s.strip()`: drop leading and trailing whitespace. -/
def pyStrip (s : List Char) : List Char :=
  ((s.dropWhile isPySpace).reverse.dropWhile isPySpace).reverse

/-! ### Chunking & Delivery Engine

`lain.py` line 126 and the code bot line 120:
`chunks = [response[i:i+2000] for i in range(0, len(response), 2000)]`.
-/

/-- The Discord message-size limit used by both chunking sites. -/
def chunkLimit : Nat := 2000

/-- Successive 2000-character slices of `s`; the fuel starts at `s.length` and
each step consumes at least one character, so it is never exhausted. -/
def chunksGo : Nat → List Char → List (List Char)
  | _, [] => []
  | 0, s => [s]
  | fuel + 1, c :: cs =>
    (c :: cs).take chunkLimit :: chunksGo fuel ((c :: cs).drop chunkLimit)

/-- `[response[i:i+2000] for i in range(0, len(response), 2000)]`. -/
def chunksOf (s : List Char) : List (List Char) := chunksGo s.length s

theorem chunksGo_flatten : ∀ (fuel : Nat) (s : List Char), s.length ≤ fuel →
    (chunksGo fuel s).flatten = s := by
  intro fuel
  induction fuel with
  | zero =>
    intro s hs
    have : s = [] := List.eq_nil_of_length_eq_zero (Nat.le_zero.mp hs)
    subst this
    rfl
  | succ n ih =>
    intro s hs
    match s with
    | [] => rfl
    | c :: cs =>
      have hdrop : ((c :: cs).drop chunkLimit).length ≤ n := by
        simp only [List.length_drop, List.length_cons, chunkLimit]
        simp only [List.length_cons] at hs
        omega
      simp only [chunksGo, List.flatten_cons, ih _ hdrop, List.take_append_drop]

theorem chunksGo_length : ∀ (fuel : Nat) (s : List Char), s.length ≤ fuel →
    (chunksGo fuel s).length = (s.length + (chunkLimit - 1)) / chunkLimit := by
  intro fuel
  induction fuel with
  | zero =>
    intro s hs
    have : s = [] := List.eq_nil_of_length_eq_zero (Nat.le_zero.mp hs)
    subst this
    rfl
  | succ n ih =>
    intro s hs
    match s with
    | [] => rfl
    | c :: cs =>
      have hdrop : ((c :: cs).drop chunkLimit).length ≤ n := by
        simp only [List.length_drop, List.length_cons, chunkLimit]
        simp only [List.length_cons] at hs
        omega
      simp only [chunksGo, List.length_cons, ih _ hdrop, List.length_drop]
      simp only [chunkLimit, List.length_cons]
      omega

theorem chunksGo_bound : ∀ (fuel : Nat) (s : List Char) (c : List Char),
    c ∈ chunksGo fuel s → s.length ≤ fuel → c.length ≤ chunkLimit := by
  intro fuel
  induction fuel with
  | zero =>
    intro s c hc hs
    have : s = [] := List.eq_nil_of_length_eq_zero (Nat.le_zero.mp hs)
    subst this
    simp [chunksGo] at hc
  | succ n ih =>
    intro s c hc hs
    match s with
    | [] => simp [chunksGo] at hc
    | a :: as =>
      have hdrop : ((a :: as).drop chunkLimit).length ≤ n := by
        simp only [List.length_drop, List.length_cons, chunkLimit]
        simp only [List.length_cons] at hs
        omega
      simp only [chunksGo, List.mem_cons] at hc
      rcases hc with h | h
      · subst h
        exact List.length_take_le chunkLimit (a :: as)
      · exact ih _ c h hdrop

/-- C1: chunking splits a response into slices of at most 2000 characters whose
in-order concatenation reproduces the response exactly, and the number of
chunks is `ceil(len(R)/2000)` (an empty response yields zero chunks). -/
theorem chunking_reconstructs (s : List Char) :
    (chunksOf s).flatten = s ∧
    (chunksOf s).length = (s.length + 1999) / 2000 ∧
    (∀ c ∈ chunksOf s, c.length ≤ 2000) ∧
    chunksOf [] = ([] : List (List Char)) := by
  refine ⟨chunksGo_flatten _ _ le_rfl, ?_, ?_, rfl⟩
  · simpa [chunkLimit] using chunksGo_length s.length s le_rfl
  · intro c hc
    simpa [chunkLimit] using chunksGo_bound s.length s c hc le_rfl

/-- Witness for the chunk-length bound of `chunking_reconstructs` at the
concrete response "ab". -/
theorem chunking_reconstructs_witness :
    ['a', 'b'] ∈ chunksOf ['a', 'b'] ∧ ([ 'a', 'b'] : List Char).length ≤ 2000 :=
  ⟨by decide, (chunking_reconstructs ['a', 'b']).2.2.1 ['a', 'b'] (by decide)⟩

/-! ### Delivery loop

`lain.py` lines 127-135 and the code bot lines 121-129: each chunk is sent in
order; after every chunk except the last the handler sleeps 15 seconds; an
HTTPException raised by `send` is logged and breaks the loop.
-/

/-- Observable events of one delivery: a successful send, a pacing sleep, or a
logged send failure that ends the loop. -/
inductive DeliverEvent where
  | sent (chunk : List Char)
  | slept (seconds : Nat)
  | failLogged (chunk : List Char)
  deriving DecidableEq

/-- The `for idx, chunk in enumerate(chunks)` loop; `sink i` says whether the
send of the chunk at index `i` succeeds; `total` is `len(chunks)`. -/
def deliverFrom (sink : Nat → Bool) (total : Nat) : Nat → List (List Char) → List DeliverEvent
  | _, [] => []
  | idx, c :: rest =>
    if sink idx then
      DeliverEvent.sent c ::
        (if idx < total - 1 then
          DeliverEvent.slept 15 :: deliverFrom sink total (idx + 1) rest
         else deliverFrom sink total (idx + 1) rest)
    else [DeliverEvent.failLogged c]

/-- The whole delivery loop over a chunk list. -/
def deliver (sink : Nat → Bool) (chunks : List (List Char)) : List DeliverEvent :=
  deliverFrom sink chunks.length 0 chunks

/-- The trace of a fully successful paced delivery: every chunk in order,
followed by a 15-second sleep except after the last. -/
def pacedTrace : List (List Char) → List DeliverEvent
  | [] => []
  | [c] => [DeliverEvent.sent c]
  | c :: rest => DeliverEvent.sent c :: DeliverEvent.slept 15 :: pacedTrace rest

/-- The chunk carried by a send event, if any. -/
def sentChunk : DeliverEvent → Option (List Char)
  | DeliverEvent.sent c => some c
  | _ => none

/-- The chunks actually sent, in send order. -/
def sentList (tr : List DeliverEvent) : List (List Char) := tr.filterMap sentChunk

/-- Whether an event is a pacing sleep. -/
def isSleep : DeliverEvent → Bool
  | DeliverEvent.slept _ => true
  | _ => false

/-- Whether an event is a logged send failure. -/
def isFail : DeliverEvent → Bool
  | DeliverEvent.failLogged _ => true
  | _ => false

/-- Number of pacing sleeps in a trace. -/
def countSlept (tr : List DeliverEvent) : Nat := (tr.filter isSleep).length

/-- Number of logged send failures in a trace. -/
def countFail (tr : List DeliverEvent) : Nat := (tr.filter isFail).length

theorem deliverFrom_all_ok (sink : Nat → Bool) (total : Nat) :
    ∀ (cs : List (List Char)) (idx : Nat), idx + cs.length = total →
      (∀ i, i < total → sink i = true) →
      deliverFrom sink total idx cs = pacedTrace cs := by
  intro cs
  induction cs with
  | nil => intro idx _ _; rfl
  | cons c rest ih =>
    intro idx htotal hok
    have hsink : sink idx = true := hok idx (by simp [← htotal])
    match rest with
    | [] =>
      have hlt : ¬ idx < total - 1 := by
        simp only [List.length_cons, List.length_nil] at htotal
        omega
      rw [deliverFrom]
      simp [hsink, hlt, pacedTrace, deliverFrom]
    | r :: rs =>
      have hlt : idx < total - 1 := by
        simp only [List.length_cons] at htotal
        omega
      have htotal2 : (idx + 1) + (r :: rs).length = total := by
        simp only [List.length_cons] at htotal ⊢
        omega
      have ihr := ih (idx + 1) htotal2 hok
      rw [deliverFrom]
      simp [hsink, hlt, ihr, pacedTrace]

theorem sentList_pacedTrace : ∀ cs : List (List Char), sentList (pacedTrace cs) = cs
  | [] => rfl
  | [_] => rfl
  | c :: r :: rs => by
    have ih := sentList_pacedTrace (r :: rs)
    simp only [sentList] at ih
    simp only [pacedTrace, sentList, List.filterMap_cons, sentChunk]
    rw [ih]

theorem countSlept_pacedTrace : ∀ cs : List (List Char),
    countSlept (pacedTrace cs) = cs.length - 1
  | [] => rfl
  | [_] => rfl
  | c :: r :: rs => by
    have ih := countSlept_pacedTrace (r :: rs)
    simp only [countSlept] at ih
    simp only [pacedTrace, countSlept, List.filter_cons, isSleep, List.length_cons]
    simp only [List.length_cons] at ih
    simp [ih]

theorem slept_pacedTrace : ∀ (cs : List (List Char)) (n : Nat),
    DeliverEvent.slept n ∈ pacedTrace cs → n = 15
  | [], n => by simp [pacedTrace]
  | [c], n => by simp [pacedTrace]
  | c :: r :: rs, n => by
    have ih := slept_pacedTrace (r :: rs) n
    simp only [pacedTrace, List.mem_cons] at ih ⊢
    rintro (h | h | h)
    · exact absurd h (by simp)
    · injection h
    · exact ih h

/-- C3: when every send succeeds, the chunks are delivered in their original
order and exactly `N - 1` pacing sleeps occur, one after each chunk except the
last, each for the fixed 15-second interval. -/
theorem paced_delivery_trace (sink : Nat → Bool) (chunks : List (List Char))
    (hok : ∀ i, i < chunks.length → sink i = true) :
    deliver sink chunks = pacedTrace chunks ∧
    sentList (deliver sink chunks) = chunks ∧
    countSlept (deliver sink chunks) = chunks.length - 1 ∧
    ∀ n, DeliverEvent.slept n ∈ deliver sink chunks → n = 15 := by
  have htr : deliver sink chunks = pacedTrace chunks :=
    deliverFrom_all_ok sink chunks.length chunks 0 (by simp) hok
  refine ⟨htr, ?_, ?_, ?_⟩
  · rw [htr]; exact sentList_pacedTrace chunks
  · rw [htr]; exact countSlept_pacedTrace chunks
  · intro n hn
    rw [htr] at hn
    exact slept_pacedTrace chunks n hn

/-- Witness for `paced_delivery_trace`: a concrete two-chunk delivery with an
always-succeeding sink sleeps exactly once. -/
theorem paced_delivery_trace_witness :
    deliver (fun _ => true) [['a'], ['b']] = pacedTrace [['a'], ['b']] ∧
    countSlept (deliver (fun _ => true) [['a'], ['b']]) = 1 :=
  ⟨(paced_delivery_trace (fun _ => true) [['a'], ['b']] (fun _ _ => rfl)).1,
   ((paced_delivery_trace (fun _ => true) [['a'], ['b']] (fun _ _ => rfl)).2.2.1).trans rfl⟩

theorem deliverFrom_fail (sink : Nat → Bool) (total : Nat) :
    ∀ (cs : List (List Char)) (idx k : Nat) (hk : k < cs.length),
      idx + cs.length = total →
      (∀ i, i < k → sink (idx + i) = true) →
      sink (idx + k) = false →
      deliverFrom sink total idx cs =
        (cs.take k).flatMap (fun c => [DeliverEvent.sent c, DeliverEvent.slept 15]) ++
          [DeliverEvent.failLogged (cs.get ⟨k, hk⟩)] := by
  intro cs
  induction cs with
  | nil => intro idx k hk; exact absurd hk (by simp)
  | cons c rest ih =>
    intro idx k hk htotal hok hfail
    match k with
    | 0 =>
      have hs : sink idx = false := by simpa using hfail
      rw [deliverFrom]
      simp [hs]
    | k' + 1 =>
      have hrest : k' < rest.length := by simpa using hk
      have hsink : sink idx = true := by simpa using hok 0 (by omega)
      have hlt : idx < total - 1 := by
        simp only [List.length_cons] at htotal
        omega
      have hok2 : ∀ i, i < k' → sink ((idx + 1) + i) = true := by
        intro i hi
        have h2 := hok (i + 1) (by omega)
        rw [show idx + 1 + i = idx + (i + 1) by omega]
        exact h2
      have hfail2 : sink ((idx + 1) + k') = false := by
        rw [show idx + 1 + k' = idx + (k' + 1) by omega]
        exact hfail
      have ihr := ih (idx + 1) k' hrest
        (by simp only [List.length_cons] at htotal ⊢; omega) hok2 hfail2
      rw [deliverFrom]
      simp [hsink, hlt, ihr]

theorem sentList_sendSleepFlat : ∀ l : List (List Char),
    sentList (l.flatMap fun c => [DeliverEvent.sent c, DeliverEvent.slept 15]) = l
  | [] => rfl
  | c :: cs => by
    have ih := sentList_sendSleepFlat cs
    simp only [sentList] at ih
    simp only [sentList, List.flatMap_cons, List.cons_append, List.filterMap_cons, sentChunk,
      List.nil_append]
    rw [ih]

theorem countFail_sendSleepFlat : ∀ l : List (List Char),
    countFail (l.flatMap fun c => [DeliverEvent.sent c, DeliverEvent.slept 15]) = 0
  | [] => rfl
  | c :: cs => by
    have ih := countFail_sendSleepFlat cs
    simp only [countFail] at ih ⊢
    simp only [List.flatMap_cons, List.cons_append, List.filter_cons, isFail, List.nil_append]
    simpa using ih

/-- C4: if the send of the chunk at index `k` fails, chunks before `k` were
sent in order (each followed by the pacing sleep), the failure is logged once,
the failing chunk is not retried, and no later chunk is ever attempted. -/
theorem delivery_halts_on_failure (sink : Nat → Bool) (chunks : List (List Char)) (k : Nat)
    (hk : k < chunks.length) (hok : ∀ i, i < k → sink i = true) (hfail : sink k = false) :
    deliver sink chunks =
      (chunks.take k).flatMap (fun c => [DeliverEvent.sent c, DeliverEvent.slept 15]) ++
        [DeliverEvent.failLogged (chunks.get ⟨k, hk⟩)] ∧
    sentList (deliver sink chunks) = chunks.take k ∧
    countFail (deliver sink chunks) = 1 := by
  have htr := deliverFrom_fail sink chunks.length chunks 0 k hk (by simp)
    (fun i hi => by simpa using hok i hi) (by simpa using hfail)
  have htr2 : deliver sink chunks =
      (chunks.take k).flatMap (fun c => [DeliverEvent.sent c, DeliverEvent.slept 15]) ++
        [DeliverEvent.failLogged (chunks.get ⟨k, hk⟩)] := htr
  refine ⟨htr2, ?_, ?_⟩
  · rw [htr2]
    simp only [sentList, List.filterMap_append]
    have h1 := sentList_sendSleepFlat (chunks.take k)
    simp only [sentList] at h1
    simp [h1, sentChunk]
  · rw [htr2]
    simp only [countFail, List.filter_append, List.length_append]
    have h1 := countFail_sendSleepFlat (chunks.take k)
    simp only [countFail] at h1
    simp [h1, isFail]

/-- Witness for `delivery_halts_on_failure`: three chunks where the second send
fails; only the first chunk is sent and exactly one failure is logged. -/
theorem delivery_halts_on_failure_witness :
    sentList (deliver (fun i => i == 0) [['a'], ['b'], ['c']]) = [['a']] ∧
    countFail (deliver (fun i => i == 0) [['a'], ['b'], ['c']]) = 1 := by
  have h := delivery_halts_on_failure (fun i => i == 0) [['a'], ['b'], ['c']] 1 (by decide)
    (fun i hi => by
      have h0 : i = 0 := by omega
      subst h0
      rfl) rfl
  exact ⟨h.2.1.trans (by decide), h.2.2⟩

theorem countSent_deliverFrom_le (sink : Nat → Bool) (total : Nat) :
    ∀ (cs : List (List Char)) (idx : Nat),
      (sentList (deliverFrom sink total idx cs)).length ≤ cs.length := by
  intro cs
  induction cs with
  | nil => intro idx; simp [deliverFrom, sentList]
  | cons c rest ih =>
    intro idx
    rw [deliverFrom]
    by_cases hs : sink idx = true
    · rw [if_pos hs]
      by_cases hl : idx < total - 1
      · rw [if_pos hl]
        simp only [sentList, List.filterMap_cons, sentChunk, List.length_cons]
        have := ih (idx + 1)
        simp only [sentList] at this
        simpa using this
      · rw [if_neg hl]
        simp only [sentList, List.filterMap_cons, sentChunk, List.length_cons]
        have := ih (idx + 1)
        simp only [sentList] at this
        simpa using this
    · rw [if_neg hs]
      simp [sentList, List.filterMap_cons, sentChunk]

/-- C9: an empty response chunks to nothing and its delivery performs no sends
and raises no error; any (in particular whitespace-only) response is delivered
with at most one send per 2000 characters, and the pipeline is total. -/
theorem empty_whitespace_pipeline (s : List Char) (sink : Nat → Bool)
    (_hws : ∀ c ∈ s, isPySpace c = true) :
    chunksOf [] = ([] : List (List Char)) ∧
    deliver sink (chunksOf []) = [] ∧
    (sentList (deliver sink (chunksOf s))).length ≤ (s.length + 1999) / 2000 := by
  refine ⟨rfl, rfl, ?_⟩
  have h1 := countSent_deliverFrom_le sink (chunksOf s).length (chunksOf s) 0
  have h2 : (chunksOf s).length = (s.length + 1999) / 2000 := by
    simpa [chunkLimit] using chunksGo_length s.length s le_rfl
  exact h2 ▸ h1

/-- Witness for `empty_whitespace_pipeline` at the whitespace-only response
" " with a sink that rejects every send. -/
theorem empty_whitespace_pipeline_witness :
    deliver (fun _ => false) (chunksOf []) = [] ∧
    (sentList (deliver (fun _ => false) (chunksOf [' ']))).length ≤ (1 + 1999) / 2000 :=
  ⟨(empty_whitespace_pipeline [' '] (fun _ => false) (by decide)).2.1,
   by
    have h := (empty_whitespace_pipeline [' '] (fun _ => false) (by decide)).2.2
    simpa using h⟩

/-! ### Model Client and Conversation Stores

`lain.py` lines 57-93 (global history, context replayed into every call) and
the code bot lines 57-80 (single-shot call) and 62-63, 104-117 (per-channel
history dictionary).
-/

/-- Role tag of one entry of the `messages` array sent to `ollama.chat`. -/
inductive Role where
  | system
  | user
  | assistant
  deriving DecidableEq

/-- One `{'role': ..., 'content': ...}` entry of the `messages` array. -/
structure ChatMessage where
  role : Role
  content : String
  deriving DecidableEq

/-- The Lain persona prompt (lain.py lines 57-60). -/
def LAIN_PROMPT : String :=
  "Your name is Lain.\nYou are a sentient being existing within a digital realm.\nPlease keep your responses concise, no more than 2000 characters.\n"

/-- The Syn persona prompt (code bot lines 57-60). -/
def SYN_PROMPT : String :=
  "Your name is Syntax, but Syn for short.\nYou are inside of a discord text channel that helps with code generation, code improvement, debugging, and explanations.\nUse Discord markup syntax to ensure information gets across correctly.\n"

/-- One entry of `global_conversation_history`: `{'user': ..., 'lain': ...}`. -/
structure LainExchange where
  user : String
  lain : String
  deriving DecidableEq

/-- The message list built by `chat_with_lain` (lain.py lines 67-74): start
from the system message, loop over the history appending a user and an
assistant message per exchange, then append the new prompt. -/
def buildLainMessages (history : List LainExchange) (prompt : String) : List ChatMessage :=
  (history.foldl
    (fun msgs entry => msgs ++ [⟨Role.user, entry.user⟩, ⟨Role.assistant, entry.lain⟩])
    [⟨Role.system, LAIN_PROMPT⟩]) ++ [⟨Role.user, prompt⟩]

/-- Outcome of one `ollama.chat` call: the extracted response content, or any
raised exception (transport failure, non-2xx, missing payload keys). -/
inductive ModelResult where
  | ok (text : String)
  | err
  deriving DecidableEq

/-- A model that always succeeds, answering `f`. -/
def okModel (f : List ChatMessage → String) : List ChatMessage → ModelResult :=
  fun msgs => ModelResult.ok (f msgs)

/-- lain.py `chat_with_lain` (lines 65-93): build the context messages, call
the model, append the exchange to the global history only on success; any
exception yields the fixed fallback string and leaves the history unchanged.
Returns the response text and the updated global history. -/
def chat_with_lain (model : List ChatMessage → ModelResult) (history : List LainExchange)
    (prompt : String) : String × List LainExchange :=
  match model (buildLainMessages history prompt) with
  | ModelResult.ok text => (text, history ++ [⟨prompt, text⟩])
  | ModelResult.err => ("I'm sorry, but I couldn't process that.", history)

/-- A sequence of turns against the global history, one prompt per turn. -/
def runLainTurns (model : List ChatMessage → ModelResult) :
    List String → List LainExchange → List LainExchange
  | [], h => h
  | p :: ps, h => runLainTurns model ps (chat_with_lain model h p).2

/-- The two-message list sent by `chat_with_syntax` (code bot lines 71-74):
no history is replayed, only the system message and the new prompt. -/
def synMessages (prompt : String) : List ChatMessage :=
  [⟨Role.system, SYN_PROMPT⟩, ⟨Role.user, prompt⟩]

/-- `chat_with_syntax` (code bot lines 65-80): single-shot call; any exception
is caught and the fixed fallback string returned. -/
def chat_with_syn (model : List ChatMessage → ModelResult) (prompt : String) : String :=
  match model (synMessages prompt) with
  | ModelResult.ok text => text
  | ModelResult.err => "I'm sorry, but I couldn't process that."

/-- One entry of the per-channel `conversation_history` lists: the prompt
record appended before the model call, or the response record appended after. -/
inductive SynEntry where
  | userPrompt (user : String) (prompt : String)
  | botResponse (response : String)
  deriving DecidableEq

/-- The per-channel `conversation_history` defaultdict, as its entry list. -/
abbrev SynDict := List (Nat × List SynEntry)

/-- Read of `defaultdict(list)`: absent keys read as the empty history. -/
def ddGet : SynDict → Nat → List SynEntry
  | [], _ => []
  | (k, v) :: rest, key => if k = key then v else ddGet rest key

/-- `conversation_history[key].append(e)`: `__getitem__` creates the entry
with `[]` on first use, then the in-place list append extends it. -/
def ddAppend : SynDict → Nat → SynEntry → SynDict
  | [], key, e => [(key, [e])]
  | (k, v) :: rest, key, e =>
    if k = key then (k, v ++ [e]) :: rest else (k, v) :: ddAppend rest key e

/-- The per-channel store as it stands when the model call of a turn is
issued: the prompt record is already appended (code bot lines 104-108). -/
def synTurnPreModel (d : SynDict) (ch : Nat) (author prompt : String) : SynDict :=
  ddAppend d ch (SynEntry.userPrompt author prompt)

/-- One addressed turn of the code bot against the per-channel store (lines
104-117): append the prompt record, call the model (the fallback string is
the response if it raised), append the response record. -/
def synTurn (model : List ChatMessage → ModelResult) (d : SynDict) (ch : Nat)
    (author prompt : String) : SynDict :=
  ddAppend (synTurnPreModel d ch author prompt) ch
    (SynEntry.botResponse (chat_with_syn model prompt))

/-! ### Image model client (satoshi.py) -/

/-- Shape of `response.json()`: a flat string map, or a parse failure. -/
inductive JsonPayload where
  | malformed
  | fields (fs : List (String × String))
  deriving DecidableEq

/-- Outcome of the `requests.post` call in `ask_about_image_via_generate`. -/
inductive HttpOutcome where
  | transportError
  | httpResponse (status : Nat) (bodyText : String) (payload : JsonPayload)
  deriving DecidableEq

/-- `dict.get(key, default)` lookup over the payload fields. -/
def lookupField (key : String) : List (String × String) → Option String
  | [] => none
  | (k, v) :: rest => if k = key then some v else lookupField key rest

/-- satoshi.py `ask_about_image_via_generate` (lines 60-93), abstracted over
the HTTP outcome: on a 200 response return `result.get('response', ...)`;
on any other status return the interpolated error string; any raised
exception (transport, image encoding, JSON parse) yields the fixed fallback. -/
def ask_about_image_via_generate : HttpOutcome → String
  | HttpOutcome.transportError => "I'm sorry, I couldn't process the image."
  | HttpOutcome.httpResponse status bodyText payload =>
    if status = 200 then
      match payload with
      | JsonPayload.malformed => "I'm sorry, I couldn't process the image."
      | JsonPayload.fields fs =>
        (lookupField "response" fs).getD "I couldn't understand the image."
    else
      "Error: " ++ toString status ++ " - " ++ bodyText

/-! ### Trigger resolution -/

/-- The lain wake phrase checked against the lowercased message content. -/
def wakeLain : List Char := "hello lain".toList

/-- The default prompt substituted when the cleaned prompt is empty. -/
def defaultLainPrompt : List Char := "Hello".toList

/-- The prompt cleanup of lain.py lines 113-118: remove both mention forms
everywhere, remove the first occurrence of the wake phrase (case-sensitively),
strip whitespace, and fall back to the default prompt when empty. -/
def lainPromptText (mention1 mention2 content : List Char) : List Char :=
  if pyStrip (pyReplaceFirst wakeLain []
      (pyReplaceAll mention2 [] (pyReplaceAll mention1 [] content))) = [] then
    defaultLainPrompt
  else
    pyStrip (pyReplaceFirst wakeLain []
      (pyReplaceAll mention2 [] (pyReplaceAll mention1 [] content)))

/-- Result of trigger resolution: whether the bot is addressed, and the
effective prompt text when it is. -/
structure TriggerResult where
  addressed : Bool
  promptText : List Char
  deriving DecidableEq

/-- lain.py on_message lines 104-118: self-authored messages are ignored; the
bot is addressed when mentioned or when the lowercased content contains the
wake phrase; the prompt is then cleaned per `lainPromptText`. `mention1` and
`mention2` are the rendered tokens `<@!id>` and `<@id>`. -/
def lainResolve (authorIsBot mentioned : Bool) (mention1 mention2 content : List Char) :
    TriggerResult :=
  if authorIsBot then ⟨false, []⟩
  else if mentioned || containsSub wakeLain (toLowerList content) then
    ⟨true, lainPromptText mention1 mention2 content⟩
  else ⟨false, []⟩

/-! ### satoshi.py on_message -/

/-- Python exceptions relevant to the satoshi handler. -/
inductive PyErr where
  | attributeError
  deriving DecidableEq

/-- The `.trim()` call of satoshi.py line 132: Python `str` has no method
named `trim`, so the attribute lookup raises `AttributeError` for every
receiver string. -/
def pyStrTrim (_s : List Char) : Except PyErr (List Char) :=
  Except.error PyErr.attributeError

/-- The satoshi wake phrase. -/
def wakeSatoshi : List Char := "hello satoshi".toList

/-- The default question substituted when the cleaned prompt is empty. -/
def defaultSatoshiPrompt : List Char := "What is in the image?".toList

/-- satoshi.py lines 131-136: mention removal, first-occurrence wake-phrase
removal, then the `.trim()` call (which raises), then the default prompt
substitution that is never reached. -/
def satoshiResolvePrompt (mention1 mention2 content : List Char) :
    Except PyErr (List Char) :=
  match pyStrTrim (pyReplaceFirst wakeSatoshi []
      (pyReplaceAll mention2 [] (pyReplaceAll mention1 [] content))) with
  | Except.error e => Except.error e
  | Except.ok p => Except.ok (if p = [] then defaultSatoshiPrompt else p)

/-- Observable outcome of one satoshi on_message invocation. -/
inductive SatoshiOutcome where
  | ignored
  | raised (e : PyErr)
  | clarificationSent
  | fetchFailSent
  | analysisSent (response : List Char)
  deriving DecidableEq

/-- satoshi.py on_message (lines 120-157): ignore self-authored messages;
when addressed, resolve the prompt (an uncaught exception there aborts the
handler); with an attachment, fetch it and either send the model response or
the fetch-failure message; with no attachment, send the clarification. -/
def satoshiOnMessage (authorIsBot mentioned : Bool) (mention1 mention2 content : List Char)
    (hasAttachment fetchOk : Bool) (modelReply : List Char) : SatoshiOutcome :=
  if authorIsBot then SatoshiOutcome.ignored
  else if mentioned || containsSub wakeSatoshi (toLowerList content) then
    match satoshiResolvePrompt mention1 mention2 content with
    | Except.error e => SatoshiOutcome.raised e
    | Except.ok _prompt =>
      if hasAttachment then
        if fetchOk then SatoshiOutcome.analysisSent modelReply
        else SatoshiOutcome.fetchFailSent
      else SatoshiOutcome.clarificationSent
  else SatoshiOutcome.ignored

/-! ### Theorems about the stores, clients and triggers -/

theorem buildLain_foldl (history : List LainExchange) :
    ∀ init : List ChatMessage,
      history.foldl
        (fun msgs e => msgs ++ [⟨Role.user, e.user⟩, ⟨Role.assistant, e.lain⟩]) init =
        init ++ history.flatMap
          (fun e => [⟨Role.user, e.user⟩, ⟨Role.assistant, e.lain⟩]) := by
  induction history with
  | nil => intro init; simp
  | cons e es ih =>
    intro init
    simp only [List.foldl_cons, List.flatMap_cons, ih]
    simp

theorem flatMap_pair_length (history : List LainExchange) :
    (history.flatMap fun e =>
      [ChatMessage.mk Role.user e.user, ChatMessage.mk Role.assistant e.lain]).length =
      2 * history.length := by
  induction history with
  | nil => rfl
  | cons e es ih =>
    simp only [List.flatMap_cons, List.length_append, List.length_cons, List.length_nil, ih]
    omega

/-- C8: the message list of the global-context client is the system message,
a user/assistant pair per stored exchange in order, then the new prompt as
final user message, `2N + 2` in total (with empty history exactly system plus
user); the per-channel client always sends exactly the system message and the
new prompt. -/
theorem model_message_sequence (history : List LainExchange) (prompt : String) :
    buildLainMessages history prompt =
      ChatMessage.mk Role.system LAIN_PROMPT ::
        (history.flatMap fun e =>
          [ChatMessage.mk Role.user e.user, ChatMessage.mk Role.assistant e.lain]) ++
        [ChatMessage.mk Role.user prompt] ∧
    (buildLainMessages history prompt).length = 2 * history.length + 2 ∧
    buildLainMessages [] prompt = [⟨Role.system, LAIN_PROMPT⟩, ⟨Role.user, prompt⟩] ∧
    synMessages prompt = [⟨Role.system, SYN_PROMPT⟩, ⟨Role.user, prompt⟩] := by
  have h1 : buildLainMessages history prompt =
      ChatMessage.mk Role.system LAIN_PROMPT ::
        (history.flatMap fun e =>
          [ChatMessage.mk Role.user e.user, ChatMessage.mk Role.assistant e.lain]) ++
        [ChatMessage.mk Role.user prompt] := by
    unfold buildLainMessages
    rw [buildLain_foldl]
    simp
  refine ⟨h1, ?_, by simp [buildLainMessages], rfl⟩
  rw [h1]
  simp only [List.length_append, List.length_cons, flatMap_pair_length, List.length_nil]

theorem runLain_ok_users (f : List ChatMessage → String) :
    ∀ (ps : List String) (h : List LainExchange),
      (runLainTurns (okModel f) ps h).map LainExchange.user =
        h.map LainExchange.user ++ ps := by
  intro ps
  induction ps with
  | nil => intro h; simp [runLainTurns]
  | cons p ps ih =>
    intro h
    simp only [runLainTurns, chat_with_lain, okModel]
    rw [ih]
    simp

theorem ddGet_ddAppend (d : SynDict) (key key2 : Nat) (e : SynEntry) :
    ddGet (ddAppend d key e) key2 =
      if key2 = key then ddGet d key2 ++ [e] else ddGet d key2 := by
  induction d with
  | nil =>
    by_cases h : key2 = key
    · subst h; simp [ddAppend, ddGet]
    · simp [ddAppend, ddGet, h, Ne.symm h]
  | cons kv rest ih =>
    obtain ⟨k, v⟩ := kv
    by_cases hk : k = key
    · subst hk
      by_cases h2 : key2 = k
      · subst h2; simp [ddAppend, ddGet]
      · simp [ddAppend, ddGet, h2, Ne.symm h2]
    · by_cases h2 : key2 = k
      · subst h2; simp [ddAppend, ddGet, hk, Ne.symm hk]
      · simp [ddAppend, ddGet, hk, Ne.symm h2, h2, ih]

/-- C2 amended: in the global-scope variant an exchange is appended only after
a successful model call (N successful calls from history `h` leave the prompts
of `h` followed by the N prompts in call order, and a failed call leaves the
history unchanged); in the per-channel variant the prompt record of the turn
is already stored when the model call is issued. -/
theorem history_append_discipline (f : List ChatMessage → String)
    (model : List ChatMessage → ModelResult) (ps : List String)
    (h : List LainExchange) (p : String) (d : SynDict) (ch : Nat) (author pr : String)
    (herr : model (buildLainMessages h p) = ModelResult.err) :
    (runLainTurns (okModel f) ps h).map LainExchange.user =
      h.map LainExchange.user ++ ps ∧
    (runLainTurns (okModel f) ps h).length = h.length + ps.length ∧
    (chat_with_lain model h p).2 = h ∧
    ddGet (synTurnPreModel d ch author pr) ch =
      ddGet d ch ++ [SynEntry.userPrompt author pr] := by
  refine ⟨runLain_ok_users f ps h, ?_, ?_, ?_⟩
  · have := congrArg List.length (runLain_ok_users f ps h)
    simpa using this
  · simp [chat_with_lain, herr]
  · simp [synTurnPreModel, ddGet_ddAppend]

/-- Witness for `history_append_discipline`: two successful turns from the
empty global history record exactly the two prompts in order; a failing model
call appends nothing. -/
theorem history_append_discipline_witness :
    (runLainTurns (okModel fun _ => "R") ["p1", "p2"] []).map LainExchange.user =
      ["p1", "p2"] ∧
    (chat_with_lain (fun _ => ModelResult.err) [] "q").2 = [] := by
  have h := history_append_discipline (fun _ => "R") (fun _ => ModelResult.err)
    ["p1", "p2"] [] "q" [] 3 "alice" "hi" rfl
  exact ⟨by simpa using h.1, h.2.2.1⟩

/-- C2 counterexample: in the per-channel variant a history entry for the turn
exists before the turn's model call has been issued (hence before it could
succeed), and a turn whose model call fails still stores two records. -/
theorem history_append_discipline_cex :
    ddGet (synTurnPreModel [] 0 "alice" "hi") 0 ≠ [] ∧
    ddGet (synTurn (fun _ => ModelResult.err) [] 0 "alice" "hi") 0 =
      [SynEntry.userPrompt "alice" "hi",
       SynEntry.botResponse "I'm sorry, but I couldn't process that."] := by
  decide

/-- C5 amended: the text-variant clients return the one fixed fallback string
on every model failure and never propagate the exception; the image client is
total as well but its user-facing string is not fixed: a fixed fallback on
transport failure or malformed payload, a different fixed string when the 200
payload lacks the `response` field, and a status-dependent string on any
non-2xx status. -/
theorem fallback_on_model_failure (model : List ChatMessage → ModelResult)
    (h : List LainExchange) (p : String) (status : Nat) (body : String)
    (herrL : model (buildLainMessages h p) = ModelResult.err)
    (herrS : model (synMessages p) = ModelResult.err)
    (hstatus : status ≠ 200) :
    (chat_with_lain model h p).1 = "I'm sorry, but I couldn't process that." ∧
    chat_with_syn model p = "I'm sorry, but I couldn't process that." ∧
    ask_about_image_via_generate HttpOutcome.transportError =
      "I'm sorry, I couldn't process the image." ∧
    ask_about_image_via_generate (HttpOutcome.httpResponse 200 body JsonPayload.malformed) =
      "I'm sorry, I couldn't process the image." ∧
    ask_about_image_via_generate
        (HttpOutcome.httpResponse 200 body (JsonPayload.fields [])) =
      "I couldn't understand the image." ∧
    ∀ payload, ask_about_image_via_generate (HttpOutcome.httpResponse status body payload) =
      "Error: " ++ toString status ++ " - " ++ body := by
  refine ⟨by simp [chat_with_lain, herrL], by simp [chat_with_syn, herrS], rfl,
    by simp [ask_about_image_via_generate],
    by simp [ask_about_image_via_generate, lookupField], ?_⟩
  intro payload
  simp [ask_about_image_via_generate, hstatus]

/-- C5 counterexample: two distinct non-2xx failures of the image client
yield two distinct user-facing strings, and neither equals the transport
fallback, so the failure string of that client is not fixed. -/
theorem fallback_on_model_failure_cex :
    ask_about_image_via_generate (HttpOutcome.httpResponse 404 "nf" JsonPayload.malformed) ≠
      ask_about_image_via_generate (HttpOutcome.httpResponse 500 "boom" JsonPayload.malformed) ∧
    ask_about_image_via_generate (HttpOutcome.httpResponse 404 "nf" JsonPayload.malformed) ≠
      ask_about_image_via_generate HttpOutcome.transportError := by
  decide

/-- Witness for `fallback_on_model_failure` at a failing model and a 404. -/
theorem fallback_on_model_failure_witness :
    (chat_with_lain (fun _ => ModelResult.err) [] "x").1 =
      "I'm sorry, but I couldn't process that." ∧
    ask_about_image_via_generate (HttpOutcome.httpResponse 404 "nf" JsonPayload.malformed) =
      "Error: " ++ toString 404 ++ " - " ++ "nf" := by
  have h := fallback_on_model_failure (fun _ => ModelResult.err) [] "x" 404 "nf"
    rfl rfl (by decide)
  exact ⟨h.1, h.2.2.2.2.2 JsonPayload.malformed⟩

/-- C6 amended: any content whose lowercasing contains the wake phrase is
addressed (so any casing of the wake phrase triggers the bot), but the prompt
equals the default prompt for the exact lowercase wake phrase; mixed-case
variants keep their text because the removal is case-sensitive. -/
theorem wake_phrase_trigger (mentioned : Bool) (mention1 mention2 content : List Char)
    (hcase : containsSub wakeLain (toLowerList content) = true) :
    (lainResolve false mentioned mention1 mention2 content).addressed = true ∧
    lainResolve false false "<@!1>".toList "<@1>".toList wakeLain =
      ⟨true, defaultLainPrompt⟩ := by
  refine ⟨?_, by decide⟩
  simp [lainResolve, hcase]

/-- C6 counterexample: "Hello Lain" equals the wake phrase case-insensitively
and is addressed, yet its prompt text is not the default prompt. -/
theorem wake_phrase_trigger_cex :
    toLowerList "Hello Lain".toList = wakeLain ∧
    (lainResolve false false "<@!1>".toList "<@1>".toList "Hello Lain".toList).addressed
      = true ∧
    (lainResolve false false "<@!1>".toList "<@1>".toList "Hello Lain".toList).promptText
      ≠ defaultLainPrompt := by
  decide

/-- Witness for `wake_phrase_trigger` at the upper-case content "HELLO LAIN". -/
theorem wake_phrase_trigger_witness :
    containsSub wakeLain (toLowerList "HELLO LAIN".toList) = true ∧
    (lainResolve false false "<@!1>".toList "<@1>".toList "HELLO LAIN".toList).addressed
      = true :=
  ⟨by decide,
   (wake_phrase_trigger false "<@!1>".toList "<@1>".toList "HELLO LAIN".toList
     (by decide)).1⟩

/-- C7 (code bug): for an addressed satoshi message the prompt cleanup raises
`AttributeError` at the `.trim()` call, so the handler aborts before checking
attachments: with no attachment present, no clarification is sent and the
model client, though unreached, is not the cause. The first conjunct
evaluates the handler at the failing input; the second shows every addressed
(mentioned) message raises, whatever the attachments. -/
theorem satoshi_missing_attachment_crashes :
    satoshiOnMessage false false "<@!9>".toList "<@9>".toList
      "hello satoshi what is this?".toList false true [] =
      SatoshiOutcome.raised PyErr.attributeError ∧
    ∀ (mention1 mention2 content modelReply : List Char) (hasAttachment fetchOk : Bool),
      satoshiOnMessage false true mention1 mention2 content hasAttachment fetchOk
        modelReply = SatoshiOutcome.raised PyErr.attributeError := by
  refine ⟨by decide, ?_⟩
  intro m1 m2 content mr ha fo
  simp [satoshiOnMessage, satoshiResolvePrompt, pyStrTrim]

theorem ddKeys_ddAppend (d : SynDict) (key : Nat) (e : SynEntry) :
    (ddAppend d key e).map Prod.fst =
      if key ∈ d.map Prod.fst then d.map Prod.fst else d.map Prod.fst ++ [key] := by
  induction d with
  | nil => simp [ddAppend]
  | cons kv rest ih =>
    obtain ⟨k, v⟩ := kv
    by_cases hk : k = key
    · subst hk; simp [ddAppend]
    · have hstep : ddAppend ((k, v) :: rest) key e = (k, v) :: ddAppend rest key e := by
        simp [ddAppend, hk]
      rw [hstep]
      simp only [List.map_cons, ih]
      by_cases hmem : key ∈ rest.map Prod.fst
      · simp [hmem, List.mem_cons, Ne.symm hk]
      · simp [hmem, List.mem_cons, Ne.symm hk, hk]

theorem mem_ddKeys_ddAppend (d : SynDict) (key : Nat) (e : SynEntry) :
    key ∈ (ddAppend d key e).map Prod.fst := by
  rw [ddKeys_ddAppend]
  by_cases h : key ∈ d.map Prod.fst <;> simp [h]

/-- C10: one addressed turn of the per-channel bot in channel `ch` changes
only the history stored under `ch`, appending its prompt and response
records; every other channel's history reads unchanged; at most the key `ch`
is created, and from an empty store the turn creates exactly that key with
exactly the turn's two records. -/
theorem per_channel_frame (model : List ChatMessage → ModelResult) (d : SynDict)
    (ch : Nat) (author prompt : String) (other : Nat) (hne : other ≠ ch) :
    ddGet (synTurn model d ch author prompt) other = ddGet d other ∧
    ddGet (synTurn model d ch author prompt) ch =
      ddGet d ch ++ [SynEntry.userPrompt author prompt,
        SynEntry.botResponse (chat_with_syn model prompt)] ∧
    (synTurn model d ch author prompt).map Prod.fst =
      (if ch ∈ d.map Prod.fst then d.map Prod.fst else d.map Prod.fst ++ [ch]) ∧
    synTurn model [] ch author prompt =
      [(ch, [SynEntry.userPrompt author prompt,
        SynEntry.botResponse (chat_with_syn model prompt)])] := by
  refine ⟨?_, ?_, ?_, ?_⟩
  · simp [synTurn, synTurnPreModel, ddGet_ddAppend, hne]
  · simp [synTurn, synTurnPreModel, ddGet_ddAppend]
  · unfold synTurn synTurnPreModel
    rw [ddKeys_ddAppend, if_pos (mem_ddKeys_ddAppend _ _ _), ddKeys_ddAppend]
  · simp [synTurn, synTurnPreModel, ddAppend]

/-- Witness for `per_channel_frame`: a turn in channel 5 from the empty store
leaves channel 7 empty and creates exactly the channel-5 history. -/
theorem per_channel_frame_witness :
    ddGet (synTurn (okModel fun _ => "R") [] 5 "alice" "hi") 7 = ddGet ([] : SynDict) 7 ∧
    synTurn (okModel fun _ => "R") [] 5 "alice" "hi" =
      [(5, [SynEntry.userPrompt "alice" "hi", SynEntry.botResponse "R"])] := by
  have h := per_channel_frame (okModel fun _ => "R") [] 5 "alice" "hi" 7 (by decide)
  exact ⟨h.1, h.2.2.2.trans (by decide)⟩

end DiscordWhispers
